import Mathlib

/-!
# CoolieClicker_kaizou: a verification development of `Main.cpp`

Shallow embedding of the simulation core of the clicker game.

Conventions of the embedding:

* `int32` values are integers kept in the range `[-2^31, 2^31)`; every `int32`
  arithmetic operation of the source is followed by `toInt32`, the
  two's-complement reduction that the compiled program performs.
* `double` values are rationals and arithmetic on them is exact. Every finite
  `double` is a dyadic rational, so every value the program can hold is covered;
  rounding is not modelled. Where the source can produce `Math::Inf` or NaN
  (the background-spawn interval) the value is an `ExtDouble`.
* `Array<T>` is `List T`; a subscript outside the array has no defined result
  and yields `none`.
* A `while` loop is a function with a fuel argument that returns `none` when the
  fuel runs out before the loop condition turns false.
-/

namespace CoolieClicker

/-! ## Machine integers -/

/-- Two's-complement reduction of an integer to the `int32` range. -/
def toInt32 (z : ℤ) : ℤ := (z + 2147483648) % 4294967296 - 2147483648

/-- The values an `int32` can hold. -/
def isInt32 (z : ℤ) : Prop := -2147483648 ≤ z ∧ z < 2147483648

instance (z : ℤ) : Decidable (isInt32 z) := by unfold isInt32; infer_instance

/-! ## Items (`struct Item`) -/

/-- The numeric fields of `struct Item` (the texture and the name play no part
in the simulation). -/
structure Item where
  initialCost : ℤ
  cps : ℤ
deriving DecidableEq, Repr

/-- `Item::getCost`: `return initialCost * (count + 1);` in `int32`. -/
def Item.getCost (item : Item) (count : ℤ) : ℤ :=
  toInt32 (item.initialCost * toInt32 (count + 1))

/-- The catalogue built in `Main`. -/
def ItemTable : List Item :=
  [{ initialCost := 10, cps := 1 }, { initialCost := 100, cps := 10 },
   { initialCost := 1000, cps := 100 }]

/-! ## `CalculateCPS` -/

/-- The loop of `CalculateCPS` from index `i` on, `cps` being the running total:
`for (; i < ItemTable.size(); ++i) cps += ItemTable[i].cps * itemCounts[i];`.
The first argument is the part of the table still to visit. -/
def CalculateCPS.loop (itemCounts : List ℤ) : List Item → Nat → ℤ → Option ℤ
  | [], _, cps => some cps
  | item :: rest, i, cps =>
    match itemCounts[i]? with
    | none => none
    | some c => CalculateCPS.loop itemCounts rest (i + 1) (toInt32 (cps + toInt32 (item.cps * c)))

/-- `CalculateCPS(ItemTable, itemCounts)`; `none` when `itemCounts` is read out
of bounds. -/
def CalculateCPS (ItemTable : List Item) (itemCounts : List ℤ) : Option ℤ :=
  CalculateCPS.loop itemCounts ItemTable 0 0

/-- The exact (unbounded) sum of `catalog[i].cps * itemCounts[i]`. -/
def cpsSum (ItemTable : List Item) (itemCounts : List ℤ) : ℤ :=
  (List.zipWith (fun item c => item.cps * c) ItemTable itemCounts).sum

/-! ## The economy part of `Main` -/

/-- The variables of `Main` that hold the economy: `cookies`, `itemCounts` and
the production accumulator `accumulatedTime`. -/
structure GameState where
  cookies : ℚ
  itemCounts : List ℤ
  accumulatedTime : ℚ
deriving DecidableEq, Repr

/-- State at the start of `Main`: `Array<int32> itemCounts(ItemTable.size())`,
`cookies = 0`, `accumulatedTime = 0.0`. -/
def initialState (ItemTable : List Item) : GameState :=
  { cookies := 0, itemCounts := List.replicate ItemTable.length 0, accumulatedTime := 0 }

/-- Production accrual of one frame (lines 299-309):
`accumulatedTime += deltaTime; if (0.1 <= accumulatedTime) { accumulatedTime -= 0.1;
cookies += (cps * 0.1); }`. -/
def accrue (cps : ℤ) (deltaTime : ℚ) (s : GameState) : GameState :=
  let accumulatedTime := s.accumulatedTime + deltaTime
  if 0.1 ≤ accumulatedTime then
    { s with accumulatedTime := accumulatedTime - 0.1, cookies := s.cookies + (cps : ℚ) * 0.1 }
  else
    { s with accumulatedTime := accumulatedTime }

/-- Click on the cookie (lines 339-342): `++cookies`. -/
def clickCookie (leftClicked : Bool) (s : GameState) : GameState :=
  if leftClicked then { s with cookies := s.cookies + 1 } else s

/-- Return value of `Button`: `return (enabled && rect.leftClicked());`. -/
def Button (enabled leftClicked : Bool) : Bool := enabled && leftClicked

/-- Body of the purchase loop for index `i` (lines 376-391); `leftClicked` is
what `rect.leftClicked()` answers for button `i` in this frame. -/
def purchase (ItemTable : List Item) (leftClicked : Bool) (i : Nat) (s : GameState) :
    Option GameState :=
  match ItemTable[i]?, s.itemCounts[i]? with
  | some item, some itemCount =>
    let itemCost := item.getCost itemCount
    if Button (decide ((itemCost : ℚ) ≤ s.cookies)) leftClicked then
      some { s with cookies := s.cookies - (itemCost : ℚ),
                    itemCounts := s.itemCounts.set i (toInt32 (itemCount + 1)) }
    else
      some s
  | _, _ => none

/-- The purchase loop `for (size_t i = 0; i < ItemTable.size(); ++i)` over the
indices still to visit. -/
def purchaseLoop (ItemTable : List Item) (leftClicked : Nat → Bool) :
    List Nat → GameState → Option GameState
  | [], s => some s
  | i :: rest, s =>
    match purchase ItemTable (leftClicked i) i s with
    | none => none
    | some s1 => purchaseLoop ItemTable leftClicked rest s1

/-- What the frame reads from the platform: `Scene::DeltaTime()`,
`CookieCircle.leftClicked()` and `rect.leftClicked()` of each button. -/
structure FrameInput where
  deltaTime : ℚ
  cookieClicked : Bool
  buttonClicked : Nat → Bool

/-- One pass of the main loop on the economy variables: `CalculateCPS`, accrual,
click, purchase loop. The spring, the spawn controller and the effects write
only their own variables and are modelled separately. -/
def frame (ItemTable : List Item) (inp : FrameInput) (s : GameState) : Option GameState :=
  match CalculateCPS ItemTable s.itemCounts with
  | none => none
  | some cps =>
    purchaseLoop ItemTable inp.buttonClicked (List.range ItemTable.length)
      (clickCookie inp.cookieClicked (accrue cps inp.deltaTime s))

/-! ## `CookieSpring` -/

/-- Member variables of `class CookieSpring`. -/
structure CookieSpring where
  m_x : ℚ
  m_velocity : ℚ
  m_accumulatedTime : ℚ
deriving DecidableEq, Repr

/-- Body of the `while` loop of `CookieSpring::update` (lines 176-191). -/
def CookieSpring.step (pressed : Bool) (s : CookieSpring) : CookieSpring :=
  let force : ℚ := -0.02 * s.m_x
  let force : ℚ := if pressed then force + 0.004 else force
  let velocity : ℚ := (s.m_velocity + force) * 0.92
  { m_x := s.m_x + velocity, m_velocity := velocity,
    m_accumulatedTime := s.m_accumulatedTime - 0.005 }

/-- The loop `while (0.005 <= m_accumulatedTime) { ... }`. -/
def CookieSpring.loop (pressed : Bool) : Nat → CookieSpring → Option CookieSpring
  | 0, s => if 0.005 ≤ s.m_accumulatedTime then none else some s
  | fuel + 1, s =>
    if 0.005 ≤ s.m_accumulatedTime then CookieSpring.loop pressed fuel (CookieSpring.step pressed s)
    else some s

/-- `CookieSpring::update(deltaTime, pressed)`. -/
def CookieSpring.update (fuel : Nat) (deltaTime : ℚ) (pressed : Bool) (s : CookieSpring) :
    Option CookieSpring :=
  CookieSpring.loop pressed fuel { s with m_accumulatedTime := s.m_accumulatedTime + deltaTime }

/-- The quadratic form `0.0184 x² + 0.0616 x v + 0.92 v²`, which one unpressed
step multiplies by exactly `0.92`. -/
def CookieSpring.energy (s : CookieSpring) : ℚ :=
  0.0184 * s.m_x ^ 2 + 0.0616 * s.m_x * s.m_velocity + 0.92 * s.m_velocity ^ 2

/-! ## Doubles that may be non-finite -/

/-- A `double` at a place where the source can produce a non-finite value: a
finite value, `+∞`, `-∞` or NaN. -/
inductive ExtDouble where
  | finite (q : ℚ)
  | posInf
  | negInf
  | nan
deriving DecidableEq, Repr

/-- IEEE-754 comparison `a < b`; false as soon as one side is NaN. -/
def ExtDouble.lt : ExtDouble → ExtDouble → Bool
  | .nan, _ => false
  | _, .nan => false
  | .finite a, .finite b => decide (a < b)
  | .finite _, .posInf => true
  | .finite _, .negInf => false
  | .posInf, _ => false
  | .negInf, .negInf => false
  | .negInf, _ => true

/-- IEEE-754 comparison `a <= b`; false as soon as one side is NaN. -/
def ExtDouble.le : ExtDouble → ExtDouble → Bool
  | .nan, _ => false
  | _, .nan => false
  | .finite a, .finite b => decide (a ≤ b)
  | .finite _, .posInf => true
  | .finite _, .negInf => false
  | .posInf, .posInf => true
  | .posInf, _ => false
  | .negInf, _ => true

/-- IEEE-754 quotient `1.0 / x`: `+∞` at `+0`, `0` at an infinity, NaN at NaN. -/
def ExtDouble.recip : ExtDouble → ExtDouble
  | .finite q => if q = 0 then .posInf else .finite (1.0 / q)
  | .posInf => .finite 0
  | .negInf => .finite 0
  | .nan => .nan

/-- The library's `Max(a, b)`, `(a < b) ? b : a`: a NaN first argument comes
back as it is. -/
def ExtDouble.Max (a b : ExtDouble) : ExtDouble := if a.lt b then b else a

/-- The library's `Math::Log2` at an integer argument: NaN below `0`, `-∞` at
`0`, and for a positive argument the finite value `log2 x`, the logarithm on
positive integers being a parameter. -/
def Math.Log2 (log2 : ℤ → ℚ) (x : ℤ) : ExtDouble :=
  if x < 0 then .nan else if x = 0 then .negInf else .finite (log2 x)

/-! ## Background spawn (lines 311-327) -/

/-- The value of `cookieBackgroundSpawnTime`:
`cps ? Max(1.0 / Math::Log2(cps * 2), 0.03) : Math::Inf`, the product `cps * 2`
being `int32`. -/
def cookieBackgroundSpawnTime (log2 : ℤ → ℚ) (cps : ℤ) : ExtDouble :=
  if cps ≠ 0 then
    ExtDouble.Max (ExtDouble.recip (Math.Log2 log2 (toInt32 (cps * 2)))) (.finite 0.03)
  else
    .posInf

/-- The loop `while (cookieBackgroundSpawnTime <= cookieBackgroundAccumulatedTime)
{ effectBackground.add(...); cookieBackgroundAccumulatedTime -= cookieBackgroundSpawnTime; }`
on the pair (number of effects added so far, accumulator). Of the non-finite
intervals only `-∞` passes the test; the accumulator is then `+∞` and the loop
does not end. -/
def spawnLoop (spawnTime : ExtDouble) : Nat → Nat × ℚ → Option (Nat × ℚ)
  | 0, (n, acc) => if spawnTime.le (.finite acc) then none else some (n, acc)
  | fuel + 1, (n, acc) =>
    if spawnTime.le (.finite acc) then
      match spawnTime with
      | .finite t => spawnLoop spawnTime fuel (n + 1, acc - t)
      | _ => none
    else
      some (n, acc)

/-- The background-spawn block of one frame: returns the number of
`CookieBackgroundEffect`s added and the new `cookieBackgroundAccumulatedTime`. -/
def backgroundSpawn (log2 : ℤ → ℚ) (fuel : Nat) (cps : ℤ) (deltaTime : ℚ)
    (cookieBackgroundAccumulatedTime : ℚ) : Option (Nat × ℚ) :=
  let acc := if cps ≠ 0 then cookieBackgroundAccumulatedTime + deltaTime
             else cookieBackgroundAccumulatedTime
  spawnLoop (cookieBackgroundSpawnTime log2 cps) fuel (0, acc)

/-! ## Effects -/

/-- `CookieBackgroundEffect::update`: `return (t < 3.0);`. -/
def CookieBackgroundEffect.update (t : ℚ) : Bool := decide (t < 3.0)

/-- `CookieEffect::update`: `return (t < 1.0);`. -/
def CookieEffect.update (t : ℚ) : Bool := decide (t < 1.0)

/-- `PlusOneEffect::update`: `return (t < 1.0);`. -/
def PlusOneEffect.update (t : ℚ) : Bool := decide (t < 1.0)

/-- The three classes deriving from `IEffect`. -/
inductive EffectKind where
  | CookieBackgroundEffect
  | CookieEffect
  | PlusOneEffect
deriving DecidableEq, Repr

/-- Virtual call `IEffect::update(t)`. -/
def EffectKind.update : EffectKind → ℚ → Bool
  | .CookieBackgroundEffect, t => CookieBackgroundEffect.update t
  | .CookieEffect, t => CookieEffect.update t
  | .PlusOneEffect, t => PlusOneEffect.update t

/-- The constant that the `update` of each variant compares `t` with. -/
def EffectKind.expiry : EffectKind → ℚ
  | .CookieBackgroundEffect => 3
  | .CookieEffect => 1
  | .PlusOneEffect => 1

/-- Modelled from the spec: the library's effect collection `Effect` is not in
the repository. An entry of the collection is a variant with the time elapsed
since it was added. -/
structure EffectInstance where
  kind : EffectKind
  elapsed : ℚ
deriving DecidableEq, Repr

/-- Modelled from the spec: `add(effect)` of the library's `Effect`, "appends a
new instance with elapsed time 0". -/
def Effect.add (kind : EffectKind) (c : List EffectInstance) : List EffectInstance :=
  c ++ [{ kind := kind, elapsed := 0 }]

/-- Modelled from the spec: `advance(deltaTime)` of the library's `Effect`, "for
every live instance, increment elapsed time by deltaTime, evaluate its expiry
predicate; instances whose predicate is false are removed". -/
def Effect.advance (deltaTime : ℚ) (c : List EffectInstance) : List EffectInstance :=
  (c.map fun e => { e with elapsed := e.elapsed + deltaTime }).filter
    fun e => e.kind.update e.elapsed

/-- Successive `advance` calls, one per frame. -/
def Effect.advanceAll : List ℚ → List EffectInstance → List EffectInstance
  | [], c => c
  | dt :: dts, c => Effect.advanceAll dts (Effect.advance dt c)

/-! ## Persistence -/

/-- Modelled from the spec: the byte encoding of the library's binary archive
("fixed binary layout") is not in the repository. `putLE k n` is the `k`-byte
little-endian encoding of `n`. -/
def putLE : Nat → Nat → List Nat
  | 0, _ => []
  | k + 1, n => n % 256 :: putLE k (n / 256)

/-- Modelled from the spec: reads `k` little-endian bytes and returns the number
with the rest of the stream, `none` when the stream is too short. -/
def getLE : Nat → List Nat → Option (Nat × List Nat)
  | 0, bs => some (0, bs)
  | _ + 1, [] => none
  | k + 1, b :: bs =>
    match getLE k bs with
    | none => none
    | some (n, rest) => some (b + 256 * n, rest)

/-- Modelled from the spec: a "32-bit integer" field, four bytes in two's
complement. -/
def putInt32 (z : ℤ) : List Nat := putLE 4 (z % 4294967296).toNat

/-- Modelled from the spec: reads `n` 32-bit integers. -/
def getInt32s : Nat → List Nat → Option (List ℤ × List Nat)
  | 0, bs => some ([], bs)
  | n + 1, bs =>
    match getLE 4 bs with
    | none => none
    | some (u, rest) =>
      match getInt32s n rest with
      | none => none
      | some (zs, rest1) => some (toInt32 (u : ℤ) :: zs, rest1)

/-- Modelled from the spec: a "length-prefixed sequence of 32-bit integers", the
length in eight bytes. -/
def putArray (xs : List ℤ) : List Nat := putLE 8 xs.length ++ (xs.map putInt32).flatten

/-- Modelled from the spec: reads a length-prefixed sequence of 32-bit integers. -/
def getArray (bs : List Nat) : Option (List ℤ × List Nat) :=
  match getLE 8 bs with
  | none => none
  | some (n, rest) => getInt32s n rest

/-- `struct SaveData`; the `double cookies` is held as its 64-bit pattern, which
is what the archive copies. -/
structure SaveData where
  cookies : Nat
  itemCounts : List ℤ
deriving DecidableEq, Repr

/-- `SaveData::SIV3D_SERIALIZE` run by a writer: `archive(cookies, itemCounts)`. -/
def SaveData.write (d : SaveData) : List Nat := putLE 8 d.cookies ++ putArray d.itemCounts

/-- `SaveData::SIV3D_SERIALIZE` run by a reader: `archive(cookies, itemCounts)`. -/
def SaveData.read (bs : List Nat) : Option SaveData :=
  match getLE 8 bs with
  | none => none
  | some (cookies, rest) =>
    match getArray rest with
    | none => none
    | some (itemCounts, _) => some { cookies := cookies, itemCounts := itemCounts }

/-- How the machine represents a `double`: the 64-bit pattern of the double with
a given value, and the value a pattern stands for. -/
structure DoubleRep where
  bits : ℚ → Nat
  value : Nat → ℚ

/-- The value of a finite IEEE-754 binary64 pattern. -/
def ieee754Value (b : Nat) : ℚ :=
  let sign : ℚ := if b / 2 ^ 63 % 2 = 1 then -1 else 1
  let e : Nat := b / 2 ^ 52 % 2048
  let m : Nat := b % 2 ^ 52
  if e = 0 then sign * m / 2 ^ 1074
  else if 1075 ≤ e then sign * (2 ^ 52 + m) * 2 ^ (e - 1075)
  else sign * (2 ^ 52 + m) / 2 ^ (1075 - e)

/-- Saving at the end of `Main` (lines 396-402):
`writer(SaveData{ cookies, itemCounts })`; the result is the content of
`game.save`. -/
def saveGame (rep : DoubleRep) (s : GameState) : List Nat :=
  SaveData.write { cookies := rep.bits s.cookies, itemCounts := s.itemCounts }

/-- Loading at the start of `Main` (lines 277-292); `file` is the content of
`game.save`, `none` when the reader did not open. A stream that ends before the
record is complete has no defined result. -/
def loadGame (rep : DoubleRep) (file : Option (List Nat)) (s : GameState) : Option GameState :=
  match file with
  | none => some s
  | some bs =>
    match SaveData.read bs with
    | none => none
    | some saveData =>
      some { s with cookies := rep.value saveData.cookies, itemCounts := saveData.itemCounts }

/-- States of the economy that `Main` can be in: the initial state, the state
after loading a save file whose record satisfies `accept`, and the state after
each further frame. -/
inductive Reachable (rep : DoubleRep) (ItemTable : List Item) (accept : SaveData → Prop) :
    GameState → Prop where
  | start : Reachable rep ItemTable accept (initialState ItemTable)
  | load (bs : List Nat) (d : SaveData) (s : GameState) :
      SaveData.read bs = some d → accept d →
      loadGame rep (some bs) (initialState ItemTable) = some s →
      Reachable rep ItemTable accept s
  | frame (inp : FrameInput) (s s1 : GameState) :
      Reachable rep ItemTable accept s → frame ItemTable inp s = some s1 →
      Reachable rep ItemTable accept s1

/-! ## Facts about `int32` reduction -/

theorem toInt32_of_isInt32 {z : ℤ} (h : isInt32 z) : toInt32 z = z := by
  unfold isInt32 at h
  unfold toInt32
  omega

theorem isInt32_toInt32 (z : ℤ) : isInt32 (toInt32 z) := by
  unfold isInt32 toInt32
  omega

theorem toInt32_modEq (z : ℤ) : toInt32 z ≡ z [ZMOD 4294967296] := by
  unfold toInt32 Int.ModEq
  omega

theorem toInt32_congr {a b : ℤ} (h : a ≡ b [ZMOD 4294967296]) : toInt32 a = toInt32 b := by
  unfold toInt32
  unfold Int.ModEq at h
  omega

/-! ## `Item::getCost` -/

/-- In the wrap-around model the cost is the exact product reduced to `int32`. -/
theorem getCost_eq_toInt32 (item : Item) (count : ℤ) :
    item.getCost count = toInt32 (item.initialCost * (count + 1)) := by
  unfold Item.getCost
  exact toInt32_congr (Int.ModEq.mul_left _ (toInt32_modEq _))

/-- C7 as stated fails: for the third catalogue item (`initialCost = 1000`) and
`count = 2147483` the product `1000 * 2147484` does not fit in `int32`; the
returned cost is negative, differs from `initialCost * (count + 1)`, and is
below the cost at `count = 2147482`, so the cost does not increase there. -/
theorem getCost_overflow_counterexample :
    (0 : ℤ) < 1000 ∧ (0 : ℤ) ≤ 2147483 ∧
    Item.getCost { initialCost := 1000, cps := 100 } 2147483 = -2147483296 ∧
    Item.getCost { initialCost := 1000, cps := 100 } 2147483 ≠ 1000 * (2147483 + 1) ∧
    ¬ (Item.getCost { initialCost := 1000, cps := 100 } 2147482
        < Item.getCost { initialCost := 1000, cps := 100 } (2147482 + 1)) := by
  decide

/-- C7 (amended): for every item with `initialCost > 0` and every `count ≥ 0`
such that `initialCost * (count + 2)` fits in `int32`, `getCost count` equals
`initialCost * (count + 1)` and `getCost count < getCost (count + 1)`. -/
theorem getCost_linear_strictMono (item : Item) (count : ℤ)
    (hcost : 0 < item.initialCost) (hcount : 0 ≤ count)
    (hfit : item.initialCost * (count + 2) < 2147483648) :
    item.getCost count = item.initialCost * (count + 1) ∧
    item.getCost (count + 1) = item.initialCost * (count + 1 + 1) ∧
    item.getCost count < item.getCost (count + 1) := by
  have h1 : isInt32 (item.initialCost * (count + 1)) := by
    constructor <;> nlinarith
  have h2 : isInt32 (item.initialCost * (count + 1 + 1)) := by
    constructor <;> nlinarith
  rw [getCost_eq_toInt32, getCost_eq_toInt32, toInt32_of_isInt32 h1, toInt32_of_isInt32 h2]
  refine ⟨rfl, rfl, ?_⟩
  nlinarith

/-- The amended C7 at the first catalogue item with nothing owned: the cost is
`10` and the next cost is `20`. -/
theorem getCost_linear_strictMono_witness :
    Item.getCost { initialCost := 10, cps := 1 } 0 = 10 * (0 + 1) ∧
    Item.getCost { initialCost := 10, cps := 1 } (0 + 1) = 10 * (0 + 1 + 1) ∧
    Item.getCost { initialCost := 10, cps := 1 } 0
      < Item.getCost { initialCost := 10, cps := 1 } (0 + 1) :=
  getCost_linear_strictMono { initialCost := 10, cps := 1 } 0 (by decide) (by decide) (by decide)

/-! ## `CalculateCPS` -/

theorem CalculateCPS_loop_eq :
    ∀ (rest : List Item) (cs front : List ℤ) (cps : ℤ),
      isInt32 cps → cs.length = rest.length →
      CalculateCPS.loop (front ++ cs) rest front.length cps
        = some (toInt32 (cps + cpsSum rest cs)) := by
  intro rest
  induction rest with
  | nil =>
    intro cs front cps hcps _
    simp [CalculateCPS.loop, cpsSum, toInt32_of_isInt32 hcps]
  | cons item rest ih =>
    intro cs front cps _ hlen
    cases cs with
    | nil => simp at hlen
    | cons c cs =>
      have hget : (front ++ c :: cs)[front.length]? = some c := by
        rw [List.getElem?_append_right (le_refl _)]
        simp
      have hsplit : front ++ c :: cs = (front ++ [c]) ++ cs := by simp
      have hlen1 : (front ++ [c]).length = front.length + 1 := by simp
      have hrec := ih cs (front ++ [c]) (toInt32 (cps + toInt32 (item.cps * c)))
        (isInt32_toInt32 _) (by simpa using hlen)
      rw [hlen1, ← hsplit] at hrec
      simp only [CalculateCPS.loop, hget, hrec]
      congr 1
      apply toInt32_congr
      have e : cpsSum (item :: rest) (c :: cs) = item.cps * c + cpsSum rest cs := by
        simp [cpsSum]
      rw [e, ← add_assoc]
      exact Int.ModEq.add_right _
        ((toInt32_modEq _).trans (Int.ModEq.add_left _ (toInt32_modEq _)))

theorem CalculateCPS_eq_toInt32_sum (ItemTable : List Item) (itemCounts : List ℤ)
    (hlen : itemCounts.length = ItemTable.length) :
    CalculateCPS ItemTable itemCounts = some (toInt32 (cpsSum ItemTable itemCounts)) := by
  have h := CalculateCPS_loop_eq ItemTable itemCounts [] 0 (by decide) hlen
  simpa only [List.nil_append, List.length_nil, zero_add] using h

/-- C8 as stated fails: with one item of `cps = 100` owned `21474837` times the
exact sum is `2147483700`, which `int32` cannot hold; `CalculateCPS` returns
`-2147483596`. -/
theorem CalculateCPS_overflow_counterexample :
    [(21474837 : ℤ)].length = [({ initialCost := 1000, cps := 100 } : Item)].length ∧
    CalculateCPS [{ initialCost := 1000, cps := 100 }] [21474837] = some (-2147483596) ∧
    cpsSum [{ initialCost := 1000, cps := 100 }] [21474837] = 2147483700 ∧
    CalculateCPS [{ initialCost := 1000, cps := 100 }] [21474837]
      ≠ some (cpsSum [{ initialCost := 1000, cps := 100 }] [21474837]) := by
  decide

/-- C8 (amended): for every catalogue and every `itemCounts` of the same length,
`CalculateCPS` reads every index in bounds (it returns a value) and returns the
sum of `catalog[i].cps * itemCounts[i]` reduced to the `int32` range, which is
the exact sum whenever that sum fits in `int32`. -/
theorem CalculateCPS_eq_sum (ItemTable : List Item) (itemCounts : List ℤ)
    (hlen : itemCounts.length = ItemTable.length) :
    CalculateCPS ItemTable itemCounts = some (toInt32 (cpsSum ItemTable itemCounts)) ∧
    (isInt32 (cpsSum ItemTable itemCounts) →
      CalculateCPS ItemTable itemCounts = some (cpsSum ItemTable itemCounts)) := by
  have h := CalculateCPS_eq_toInt32_sum ItemTable itemCounts hlen
  refine ⟨h, fun hfit => ?_⟩
  rw [← toInt32_of_isInt32 hfit]
  exact h

/-- The amended C8 at the catalogue of `Main` with counts `[3, 2, 1]`. -/
theorem CalculateCPS_eq_sum_witness :
    CalculateCPS ItemTable [3, 2, 1] = some (toInt32 (cpsSum ItemTable [3, 2, 1])) ∧
    (isInt32 (cpsSum ItemTable [3, 2, 1]) →
      CalculateCPS ItemTable [3, 2, 1] = some (cpsSum ItemTable [3, 2, 1])) :=
  CalculateCPS_eq_sum ItemTable [3, 2, 1] (by decide)

/-! ## Production accrual -/

/-- What one accrual step does, for every input: at most one quantum fires. -/
theorem accrue_spec (cps : ℤ) (deltaTime : ℚ) (s : GameState) :
    (s.accumulatedTime + deltaTime < 0.1 →
      accrue cps deltaTime s = { s with accumulatedTime := s.accumulatedTime + deltaTime }) ∧
    (0.1 ≤ s.accumulatedTime + deltaTime →
      accrue cps deltaTime s =
        { s with accumulatedTime := s.accumulatedTime + deltaTime - 0.1,
                 cookies := s.cookies + (cps : ℚ) * 0.1 }) := by
  constructor
  · intro h
    simp [accrue, not_le.mpr h]
  · intro h
    simp [accrue, h]

/-- C1 as stated fails for a large `deltaTime`: with `cps = 10`, an empty
accumulator and `deltaTime = 0.25` the claim asks for
`floor(0.25 / 0.1) * 0.1 * cps = 2` cookies and an accumulator below `0.1`; the
accrual step, an `if`, pays one quantum: it adds `1` cookie and leaves `0.15` in
the accumulator. -/
theorem accrue_stall_single_quantum :
    (accrue 10 0.25 { cookies := 0, itemCounts := [10, 0, 0], accumulatedTime := 0 }).cookies = 1 ∧
    ((⌊((0 : ℚ) + 0.25) / 0.1⌋ : ℤ) : ℚ) * 0.1 * ((10 : ℤ) : ℚ) = 2 ∧
    (accrue 10 0.25
      { cookies := 0, itemCounts := [10, 0, 0], accumulatedTime := 0 }).accumulatedTime = 0.15 ∧
    ¬ ((accrue 10 0.25
      { cookies := 0, itemCounts := [10, 0, 0], accumulatedTime := 0 }).accumulatedTime < 0.1) := by
  have hfloor : ⌊((0 : ℚ) + 0.25) / 0.1⌋ = 2 := by
    rw [Int.floor_eq_iff]
    norm_num
  rw [hfloor]
  norm_num [accrue]

/-- C1 (amended): for every `cps`, every accumulator value `acc ≥ 0` and every
`deltaTime ≥ 0` with `acc + deltaTime < 0.2` (in particular `acc` in `[0, 0.1)`
and `deltaTime ≤ 0.1`), one accrual step adds exactly
`floor((acc + deltaTime) / 0.1) * 0.1 * cps` to `cookies`, leaves the accumulator
in `[0, 0.1)` and leaves `itemCounts` alone; and for every `deltaTime` at all
the step pays at most one quantum `0.1 * cps`. -/
theorem accrue_quantum (cps : ℤ) (deltaTime : ℚ) (s : GameState)
    (hacc : 0 ≤ s.accumulatedTime) (hdt : 0 ≤ deltaTime)
    (hsum : s.accumulatedTime + deltaTime < 0.2) :
    (accrue cps deltaTime s).cookies
      = s.cookies + ((⌊(s.accumulatedTime + deltaTime) / 0.1⌋ : ℤ) : ℚ) * 0.1 * (cps : ℚ) ∧
    0 ≤ (accrue cps deltaTime s).accumulatedTime ∧
    (accrue cps deltaTime s).accumulatedTime < 0.1 ∧
    (accrue cps deltaTime s).itemCounts = s.itemCounts ∧
    (∀ dt : ℚ, (accrue cps dt s).cookies = s.cookies ∨
      (accrue cps dt s).cookies = s.cookies + (cps : ℚ) * 0.1) := by
  have hlast : ∀ dt : ℚ, (accrue cps dt s).cookies = s.cookies ∨
      (accrue cps dt s).cookies = s.cookies + (cps : ℚ) * 0.1 := by
    intro dt
    simp only [accrue]
    split_ifs
    · exact Or.inr rfl
    · exact Or.inl rfl
  have hcounts : (accrue cps deltaTime s).itemCounts = s.itemCounts := by
    simp only [accrue]
    split_ifs <;> rfl
  by_cases h : 0.1 ≤ s.accumulatedTime + deltaTime
  · have hfloor : ⌊(s.accumulatedTime + deltaTime) / 0.1⌋ = 1 := by
      rw [Int.floor_eq_iff]
      constructor
      · rw [le_div_iff₀ (by norm_num)]
        push_cast
        linarith
      · rw [div_lt_iff₀ (by norm_num)]
        push_cast
        linarith
    have he := (accrue_spec cps deltaTime s).2 h
    refine ⟨?_, ?_, ?_, hcounts, hlast⟩
    · rw [hfloor, he]
      push_cast
      ring
    · rw [he]
      show 0 ≤ s.accumulatedTime + deltaTime - 0.1
      linarith
    · rw [he]
      show s.accumulatedTime + deltaTime - 0.1 < 0.1
      linarith
  · have hlt : s.accumulatedTime + deltaTime < 0.1 := not_le.mp h
    have hfloor : ⌊(s.accumulatedTime + deltaTime) / 0.1⌋ = 0 := by
      rw [Int.floor_eq_iff]
      constructor
      · rw [le_div_iff₀ (by norm_num)]
        push_cast
        linarith
      · rw [div_lt_iff₀ (by norm_num)]
        push_cast
        linarith
    have he := (accrue_spec cps deltaTime s).1 hlt
    refine ⟨?_, ?_, ?_, hcounts, hlast⟩
    · rw [hfloor, he]
      push_cast
      ring
    · rw [he]
      show 0 ≤ s.accumulatedTime + deltaTime
      linarith
    · rw [he]
      exact hlt

/-- The amended C1 at `cps = 10`, accumulator `0.05` and `deltaTime = 0.1`: one
quantum fires, `1` cookie is added and `0.05` is left. -/
theorem accrue_quantum_witness :
    (accrue 10 0.1 { cookies := 0, itemCounts := [10, 0, 0], accumulatedTime := 0.05 }).cookies
      = 0 + ((⌊((0.05 : ℚ) + 0.1) / 0.1⌋ : ℤ) : ℚ) * 0.1 * ((10 : ℤ) : ℚ) ∧
    0 ≤ (accrue 10 0.1
      { cookies := 0, itemCounts := [10, 0, 0], accumulatedTime := 0.05 }).accumulatedTime ∧
    (accrue 10 0.1
      { cookies := 0, itemCounts := [10, 0, 0], accumulatedTime := 0.05 }).accumulatedTime
      < 0.1 :=
  ⟨(accrue_quantum 10 0.1 { cookies := 0, itemCounts := [10, 0, 0], accumulatedTime := 0.05 }
      (by norm_num) (by norm_num) (by norm_num)).1,
   (accrue_quantum 10 0.1 { cookies := 0, itemCounts := [10, 0, 0], accumulatedTime := 0.05 }
      (by norm_num) (by norm_num) (by norm_num)).2.1,
   (accrue_quantum 10 0.1 { cookies := 0, itemCounts := [10, 0, 0], accumulatedTime := 0.05 }
      (by norm_num) (by norm_num) (by norm_num)).2.2.1⟩

/-! ## Purchase -/

theorem spawnLoop_posInf (fuel : Nat) (p : Nat × ℚ) :
    spawnLoop .posInf fuel p = some p := by
  cases fuel <;> simp [spawnLoop, ExtDouble.le]

theorem spawnLoop_nan (fuel : Nat) (p : Nat × ℚ) :
    spawnLoop .nan fuel p = some p := by
  cases fuel <;> simp [spawnLoop, ExtDouble.le]

theorem spawnLoop_count (t : ℚ) (ht : 0 < t) :
    ∀ (k n : Nat) (acc : ℚ) (fuel : Nat), (k : ℚ) * t ≤ acc → acc < ((k : ℚ) + 1) * t →
      k ≤ fuel → spawnLoop (.finite t) fuel (n, acc) = some (n + k, acc - (k : ℚ) * t) := by
  intro k
  induction k with
  | zero =>
    intro n acc fuel _ hlt _
    have hnot : ¬ t ≤ acc := by
      simp only [Nat.cast_zero, zero_add, one_mul] at hlt
      exact not_le.mpr hlt
    cases fuel <;> simp [spawnLoop, ExtDouble.le, hnot]
  | succ k ih =>
    intro n acc fuel hle hlt hfuel
    have hk : (0 : ℚ) ≤ (k : ℚ) * t := mul_nonneg (Nat.cast_nonneg k) ht.le
    push_cast at hle hlt
    have hge : t ≤ acc := by nlinarith
    obtain ⟨f, rfl⟩ : ∃ f, fuel = f + 1 := ⟨fuel - 1, by omega⟩
    have hrec := ih (n + 1) (acc - t) f (by nlinarith) (by nlinarith) (by omega)
    simp only [spawnLoop, ExtDouble.le, hge, decide_True, if_true, hrec]
    congr 1
    refine Prod.ext (by simp; omega) ?_
    push_cast
    ring

theorem toInt32_double {cps : ℤ} (hcps : 0 < cps) (h30 : cps < 1073741824) :
    toInt32 (cps * 2) = cps * 2 :=
  toInt32_of_isInt32 ⟨by omega, by omega⟩

/-- The interval for `0 < cps < 2^30`, where `cps * 2` does not overflow: `+∞`
when the logarithm is `0`, and the clamped quotient otherwise. -/
theorem cookieBackgroundSpawnTime_inRange (log2 : ℤ → ℚ) (cps : ℤ)
    (hcps : 0 < cps) (h30 : cps < 1073741824) :
    cookieBackgroundSpawnTime log2 cps
      = if log2 (cps * 2) = 0 then .posInf
        else .finite (max (1.0 / log2 (cps * 2)) 0.03) := by
  have hpos : ¬ cps * 2 < 0 := by omega
  have hne : ¬ cps * 2 = 0 := by omega
  simp only [cookieBackgroundSpawnTime, ne_eq, hcps.ne', not_false_eq_true, if_true,
    toInt32_double hcps h30, Math.Log2, hpos, hne, if_false, ExtDouble.recip]
  by_cases hl : log2 (cps * 2) = 0
  · simp [hl, ExtDouble.Max, ExtDouble.lt]
  · simp only [hl, if_false, ExtDouble.Max, ExtDouble.lt]
    by_cases hlt : 1.0 / log2 (cps * 2) < (0.03 : ℚ)
    · simp only [hlt, decide_True, if_true, max_eq_right hlt.le]
    · simp only [hlt, decide_False, Bool.false_eq_true, if_false,
        max_eq_left (not_lt.mp hlt)]

/-- For `0 < cps < 2^30` the interval is at least `0.03`. -/
theorem backgroundSpawn_interval_ge (log2 : ℤ → ℚ) (cps : ℤ)
    (hcps : 0 < cps) (h30 : cps < 1073741824) :
    ExtDouble.le (.finite 0.03) (cookieBackgroundSpawnTime log2 cps) = true := by
  rw [cookieBackgroundSpawnTime_inRange log2 cps hcps h30]
  split_ifs
  · rfl
  · simp only [ExtDouble.le, decide_eq_true_eq]
    exact le_max_right _ _

/-- C5 as stated fails for `cps = 2^30`: the `int32` product `cps * 2` wraps to
`-2^31`, `Math::Log2` of it is NaN, `Max(NaN, 0.03)` is NaN, and `0.03 <= NaN`
is false, whatever the logarithm is on positive arguments. -/
theorem spawnTime_nan_counterexample :
    (0 : ℤ) < 1073741824 ∧ toInt32 (1073741824 * 2) = -2147483648 ∧
    (∀ log2 : ℤ → ℚ, cookieBackgroundSpawnTime log2 1073741824 = ExtDouble.nan) ∧
    ExtDouble.le (.finite 0.03) .nan = false := by
  have h : toInt32 (1073741824 * 2) = -2147483648 := by decide
  have h1 : toInt32 2147483648 = -2147483648 := by decide
  refine ⟨by decide, h, fun log2 => ?_, rfl⟩
  simp [cookieBackgroundSpawnTime, h1, Math.Log2, ExtDouble.recip, ExtDouble.Max, ExtDouble.lt]

/-- C5 (amended): with `cps = 0` the background-spawn block adds no effect and
returns the accumulator unchanged, for every `deltaTime`, every accumulator
value and every amount of fuel; with `0 < cps < 2^30` the spawn interval is at
least `0.03`, and it is `max(1 / log2(cps * 2), 0.03)` when the logarithm is not
`0`. -/
theorem backgroundSpawn_idle_and_interval_floor (log2 : ℤ → ℚ) (fuel : Nat)
    (deltaTime acc : ℚ) (cps : ℤ) (hcps : 0 < cps) (h30 : cps < 1073741824) :
    backgroundSpawn log2 fuel 0 deltaTime acc = some (0, acc) ∧
    ExtDouble.le (.finite 0.03) (cookieBackgroundSpawnTime log2 cps) = true ∧
    (log2 (cps * 2) ≠ 0 →
      cookieBackgroundSpawnTime log2 cps = .finite (max (1.0 / log2 (cps * 2)) 0.03) ∧
      (0.03 : ℚ) ≤ max (1.0 / log2 (cps * 2)) 0.03) := by
  have hs := cookieBackgroundSpawnTime_inRange log2 cps hcps h30
  refine ⟨?_, ?_, fun hl => ?_⟩
  · simp [backgroundSpawn, cookieBackgroundSpawnTime, spawnLoop_posInf]
  · rw [hs]
    split_ifs
    · rfl
    · simp only [ExtDouble.le, decide_eq_true_eq]
      exact le_max_right _ _
  · rw [hs, if_neg hl]
    exact ⟨rfl, le_max_right _ _⟩

/-- The amended C5 at `deltaTime = 100`, accumulator `1/2` (nothing spawns with
`cps = 0`) and at `cps = 4` with `log2 8 = 3`. -/
theorem backgroundSpawn_idle_and_interval_floor_witness :
    backgroundSpawn (fun _ => 3) 0 0 100 (1 / 2) = some (0, 1 / 2) ∧
    ExtDouble.le (.finite 0.03) (cookieBackgroundSpawnTime (fun _ => 3) 4) = true ∧
    cookieBackgroundSpawnTime (fun _ => 3) 4 = .finite (max (1.0 / 3) 0.03) ∧
    (0.03 : ℚ) ≤ max (1.0 / 3) 0.03 :=
  ⟨(backgroundSpawn_idle_and_interval_floor (fun _ => 3) 0 100 (1 / 2) 4
      (by decide) (by decide)).1,
   (backgroundSpawn_idle_and_interval_floor (fun _ => 3) 0 100 (1 / 2) 4
      (by decide) (by decide)).2.1,
   (backgroundSpawn_idle_and_interval_floor (fun _ => 3) 0 100 (1 / 2) 4
      (by decide) (by decide)).2.2 (by norm_num)⟩

/-- C6 as stated fails for `cps = 2^30`: the interval is NaN, the test
`NaN <= acc` is false, and from `acc = 0` with `deltaTime = 1` the block adds no
effect and leaves `1` in the accumulator, for every amount of fuel and every
logarithm; with `log2(2^31) = 31` the claim asks for
`floor(1 / max(1/31, 0.03)) = 31` effects and a remainder below `1/31`. -/
theorem backgroundSpawn_nan_counterexample :
    (0 : ℤ) < 1073741824 ∧
    (∀ (log2 : ℤ → ℚ) (fuel : Nat), backgroundSpawn log2 fuel 1073741824 1 0 = some (0, 1)) ∧
    ⌊((0 : ℚ) + 1) / max (1.0 / 31) 0.03⌋ = 31 ∧
    ¬ ((1 : ℚ) < max (1.0 / 31) 0.03) := by
  have h : toInt32 2147483648 = -2147483648 := by decide
  have hnan : ∀ log2 : ℤ → ℚ, cookieBackgroundSpawnTime log2 1073741824 = ExtDouble.nan := by
    intro log2
    simp [cookieBackgroundSpawnTime, h, Math.Log2, ExtDouble.recip, ExtDouble.Max,
      ExtDouble.lt]
  have hmax : max ((1.0 : ℚ) / 31) 0.03 = 1 / 31 := by
    rw [max_eq_left (by norm_num)]
    norm_num
  refine ⟨by decide, fun log2 fuel => ?_, ?_, ?_⟩
  · simp [backgroundSpawn, hnan, spawnLoop_nan]
  · rw [hmax, Int.floor_eq_iff]
    norm_num
  · rw [hmax]
    norm_num

/-- C6 (amended): over exact arithmetic, for every `cps` with `0 < cps < 2^30`,
accumulator `acc ≥ 0` and `deltaTime ≥ 0` (the logarithm being nonzero), with
`interval = max(1 / log2(cps * 2), 0.03)` the spawn loop terminates for every
amount of fuel from some bound on, adds exactly
`floor((acc + deltaTime) / interval)` effects and leaves the accumulator at
`acc + deltaTime - n * interval`, which lies in `[0, interval)`. Scenario: a
logarithm with `log2 8 = 3` and `cps = 4` give `interval = 1/3`, and from
`acc = 0` with `deltaTime = 1.0` exactly `3` effects are added and `0` is left. -/
theorem backgroundSpawn_count (log2 : ℤ → ℚ) (cps : ℤ) (acc deltaTime : ℚ)
    (hcps : 0 < cps) (h30 : cps < 1073741824) (hacc : 0 ≤ acc) (hdt : 0 ≤ deltaTime)
    (hlog : log2 (cps * 2) ≠ 0) :
    cookieBackgroundSpawnTime log2 cps = .finite (max (1.0 / log2 (cps * 2)) 0.03) ∧
    (∃ (n : Nat) (rest : ℚ) (bound : Nat),
      (∀ fuel, bound ≤ fuel → backgroundSpawn log2 fuel cps deltaTime acc = some (n, rest)) ∧
      (n : ℤ) = ⌊(acc + deltaTime) / max (1.0 / log2 (cps * 2)) 0.03⌋ ∧
      rest = acc + deltaTime - (n : ℚ) * max (1.0 / log2 (cps * 2)) 0.03 ∧
      0 ≤ rest ∧ rest < max (1.0 / log2 (cps * 2)) 0.03) ∧
    (∀ L : ℤ → ℚ, L 8 = 3 →
      cookieBackgroundSpawnTime L 4 = .finite (1 / 3) ∧
      ∀ fuel, 3 ≤ fuel → backgroundSpawn L fuel 4 1.0 0 = some (3, 0)) := by
  have hspawn : cookieBackgroundSpawnTime log2 cps
      = .finite (max (1.0 / log2 (cps * 2)) 0.03) := by
    rw [cookieBackgroundSpawnTime_inRange log2 cps hcps h30, if_neg hlog]
  refine ⟨hspawn, ?_, ?_⟩
  · generalize max (1.0 / log2 (cps * 2)) 0.03 = t at hspawn ⊢
    have ht3 : (0.03 : ℚ) ≤ t := by
      have h := (backgroundSpawn_interval_ge log2 cps hcps h30)
      rw [hspawn] at h
      simpa [ExtDouble.le] using h
    have ht : 0 < t := lt_of_lt_of_le (by norm_num) ht3
    have ha : 0 ≤ acc + deltaTime := add_nonneg hacc hdt
    have hq : 0 ≤ (acc + deltaTime) / t := div_nonneg ha ht.le
    have hfl : 0 ≤ ⌊(acc + deltaTime) / t⌋ := Int.floor_nonneg.mpr hq
    obtain ⟨k, hk⟩ : ∃ k : Nat, (k : ℤ) = ⌊(acc + deltaTime) / t⌋ :=
      ⟨⌊(acc + deltaTime) / t⌋.toNat, Int.toNat_of_nonneg hfl⟩
    have hkq : (k : ℚ) = ((⌊(acc + deltaTime) / t⌋ : ℤ) : ℚ) := by
      rw [← hk]
      simp
    have h1 : (k : ℚ) * t ≤ acc + deltaTime := by
      have := Int.floor_le ((acc + deltaTime) / t)
      rw [← hkq] at this
      exact (le_div_iff₀ ht).mp this
    have h2 : acc + deltaTime < ((k : ℚ) + 1) * t := by
      have := Int.lt_floor_add_one ((acc + deltaTime) / t)
      rw [← hkq] at this
      exact (div_lt_iff₀ ht).mp this
    refine ⟨k, acc + deltaTime - (k : ℚ) * t, k, ?_, hk, rfl, by linarith, by linarith⟩
    intro fuel hfuel
    have := spawnLoop_count t ht k 0 (acc + deltaTime) fuel h1 h2 hfuel
    simp only [backgroundSpawn, hspawn, hcps.ne', ne_eq, not_false_eq_true, if_true, this,
      zero_add]
  · intro L hL
    have hs : cookieBackgroundSpawnTime L 4 = .finite (1 / 3) := by
      rw [cookieBackgroundSpawnTime_inRange L 4 (by decide) (by decide)]
      norm_num [hL]
    refine ⟨hs, fun fuel hfuel => ?_⟩
    have := spawnLoop_count (1 / 3) (by norm_num) 3 0 1.0 fuel (by norm_num) (by norm_num) hfuel
    norm_num at this
    simp only [backgroundSpawn, hs]
    norm_num [this]

/-- The amended C6 at `cps = 4`, `deltaTime = 1.0`, an empty accumulator and a
logarithm with value `3`: three effects and nothing left. -/
theorem backgroundSpawn_count_witness :
    (∃ (n : Nat) (rest : ℚ) (bound : Nat),
      (∀ fuel, bound ≤ fuel → backgroundSpawn (fun _ => 3) fuel 4 1.0 0 = some (n, rest)) ∧
      (n : ℤ) = ⌊((0 : ℚ) + 1.0) / max (1.0 / 3) 0.03⌋ ∧
      rest = 0 + 1.0 - (n : ℚ) * max (1.0 / 3) 0.03 ∧
      0 ≤ rest ∧ rest < max (1.0 / 3) 0.03) ∧
    cookieBackgroundSpawnTime (fun _ => 3) 4 = .finite (1 / 3) ∧
    ∀ fuel, 3 ≤ fuel → backgroundSpawn (fun _ => 3) fuel 4 1.0 0 = some (3, 0) :=
  ⟨(backgroundSpawn_count (fun _ => 3) 4 0 1.0 (by decide) (by decide) (le_refl _)
      (by norm_num) (by norm_num)).2.1,
   (backgroundSpawn_count (fun _ => 3) 4 0 1.0 (by decide) (by decide) (le_refl _)
      (by norm_num) (by norm_num)).2.2 (fun _ => 3) rfl⟩

/-! ## `CookieSpring` -/

theorem CookieSpring.energy_step (s : CookieSpring) :
    (CookieSpring.step false s).energy = 0.92 * s.energy := by
  simp only [CookieSpring.energy, CookieSpring.step, Bool.false_eq_true, if_false]
  ring

theorem CookieSpring.energy_iterate (n : Nat) (s : CookieSpring) :
    ((CookieSpring.step false)^[n] s).energy = 0.92 ^ n * s.energy := by
  induction n generalizing s with
  | zero => simp
  | succ n ih =>
    rw [Function.iterate_succ_apply, ih, CookieSpring.energy_step, pow_succ]
    ring

theorem CookieSpring.energy_nonneg (s : CookieSpring) : 0 ≤ s.energy := by
  simp only [CookieSpring.energy]
  nlinarith [sq_nonneg (184 * s.m_x + 308 * s.m_velocity), sq_nonneg s.m_velocity]

theorem CookieSpring.sq_x_le (s : CookieSpring) : s.m_x ^ 2 ≤ 60 * s.energy := by
  simp only [CookieSpring.energy]
  nlinarith [sq_nonneg (104 * s.m_x + 1848 * s.m_velocity), sq_nonneg s.m_velocity]

theorem CookieSpring.sq_velocity_le (s : CookieSpring) : s.m_velocity ^ 2 ≤ 2 * s.energy := by
  simp only [CookieSpring.energy]
  nlinarith [sq_nonneg (308 * s.m_x + 8400 * s.m_velocity), sq_nonneg s.m_x]

theorem CookieSpring.loop_iterate (pressed : Bool) :
    ∀ (k : Nat) (s : CookieSpring) (fuel : Nat),
      (k : ℚ) * 0.005 ≤ s.m_accumulatedTime → s.m_accumulatedTime < ((k : ℚ) + 1) * 0.005 →
      k ≤ fuel →
      CookieSpring.loop pressed fuel s = some ((CookieSpring.step pressed)^[k] s) := by
  intro k
  induction k with
  | zero =>
    intro s fuel _ hlt _
    have hnot : ¬ (0.005 : ℚ) ≤ s.m_accumulatedTime := by
      simp only [Nat.cast_zero, zero_add, one_mul] at hlt
      exact not_le.mpr hlt
    cases fuel <;> simp [CookieSpring.loop, hnot]
  | succ k ih =>
    intro s fuel hle hlt hfuel
    push_cast at hle hlt
    have hge : (0.005 : ℚ) ≤ s.m_accumulatedTime := by
      have : (0 : ℚ) ≤ (k : ℚ) := Nat.cast_nonneg k
      nlinarith
    obtain ⟨f, rfl⟩ : ∃ f, fuel = f + 1 := ⟨fuel - 1, by omega⟩
    have hacc : (CookieSpring.step pressed s).m_accumulatedTime = s.m_accumulatedTime - 0.005 := rfl
    have hrec := ih (CookieSpring.step pressed s) f (by rw [hacc]; nlinarith)
      (by rw [hacc]; nlinarith) (by omega)
    simp only [CookieSpring.loop, hge, if_true, hrec, Function.iterate_succ_apply]

/-- C4: from every displacement, velocity and accumulator, the states obtained
by iterating the unpressed sub-step of `CookieSpring::update` satisfy: for every
`ε > 0` both `|x|` and `|velocity|` stay below `ε` from some step on; at every
step `x² ≤ 60 E` and `velocity² ≤ 2 E` with `E` the initial value of
`0.0184 x² + 0.0616 x v + 0.92 v²`; and an `update` call with any
`deltaTime ≥ 0` terminates and is exactly `floor((acc + deltaTime) / 0.005)`
sub-steps, leaving the accumulator in `[0, 0.005)`. -/
theorem CookieSpring_unpressed_converges (s : CookieSpring) (ε : ℚ) (hε : 0 < ε) :
    (∃ N : Nat, ∀ n, N ≤ n →
      |((CookieSpring.step false)^[n] s).m_x| < ε ∧
      |((CookieSpring.step false)^[n] s).m_velocity| < ε) ∧
    (∀ n : Nat,
      ((CookieSpring.step false)^[n] s).m_x ^ 2 ≤ 60 * s.energy ∧
      ((CookieSpring.step false)^[n] s).m_velocity ^ 2 ≤ 2 * s.energy) ∧
    (∀ deltaTime : ℚ, 0 ≤ s.m_accumulatedTime → 0 ≤ deltaTime →
      ∃ (k bound : Nat) (s1 : CookieSpring),
        (∀ fuel, bound ≤ fuel → CookieSpring.update fuel deltaTime false s = some s1) ∧
        s1 = (CookieSpring.step false)^[k]
          { s with m_accumulatedTime := s.m_accumulatedTime + deltaTime } ∧
        (k : ℤ) = ⌊(s.m_accumulatedTime + deltaTime) / 0.005⌋ ∧
        s1.energy = 0.92 ^ k * s.energy ∧
        0 ≤ s1.m_accumulatedTime ∧ s1.m_accumulatedTime < 0.005) := by
  have hE := CookieSpring.energy_nonneg s
  have hpow : ∀ n : Nat, (0.92 : ℚ) ^ n ≤ 1 := fun n => pow_le_one₀ (by norm_num) (by norm_num)
  have hpow0 : ∀ n : Nat, (0 : ℚ) ≤ 0.92 ^ n := fun n => pow_nonneg (by norm_num) n
  refine ⟨?_, ?_, ?_⟩
  · obtain ⟨N, hN⟩ : ∃ N : Nat, (0.92 : ℚ) ^ N < ε ^ 2 / (60 * s.energy + 1) :=
      exists_pow_lt_of_lt_one (div_pos (pow_pos hε 2) (by linarith)) (by norm_num)
    have hN1 : (0.92 : ℚ) ^ N * (60 * s.energy + 1) < ε ^ 2 :=
      (lt_div_iff₀ (by linarith)).mp hN
    refine ⟨N, fun n hn => ?_⟩
    have hmono : (0.92 : ℚ) ^ n ≤ 0.92 ^ N :=
      pow_le_pow_of_le_one (by norm_num) (by norm_num) hn
    have hEn := CookieSpring.energy_iterate n s
    have hx := CookieSpring.sq_x_le ((CookieSpring.step false)^[n] s)
    have hv := CookieSpring.sq_velocity_le ((CookieSpring.step false)^[n] s)
    rw [hEn] at hx hv
    have hb : (0.92 : ℚ) ^ n * s.energy ≤ 0.92 ^ N * s.energy :=
      mul_le_mul_of_nonneg_right hmono hE
    have hN0 := hpow0 N
    constructor
    · apply abs_lt_of_sq_lt_sq _ hε.le
      nlinarith
    · apply abs_lt_of_sq_lt_sq _ hε.le
      nlinarith
  · intro n
    have hEn := CookieSpring.energy_iterate n s
    have hx := CookieSpring.sq_x_le ((CookieSpring.step false)^[n] s)
    have hv := CookieSpring.sq_velocity_le ((CookieSpring.step false)^[n] s)
    rw [hEn] at hx hv
    have hb : (0.92 : ℚ) ^ n * s.energy ≤ 1 * s.energy :=
      mul_le_mul_of_nonneg_right (hpow n) hE
    constructor <;> linarith
  · intro deltaTime hacc hdt
    have ha : 0 ≤ s.m_accumulatedTime + deltaTime := add_nonneg hacc hdt
    have hfl : 0 ≤ ⌊(s.m_accumulatedTime + deltaTime) / 0.005⌋ :=
      Int.floor_nonneg.mpr (div_nonneg ha (by norm_num))
    obtain ⟨k, hk⟩ : ∃ k : Nat, (k : ℤ) = ⌊(s.m_accumulatedTime + deltaTime) / 0.005⌋ :=
      ⟨_, Int.toNat_of_nonneg hfl⟩
    have hkq : (k : ℚ) = ((⌊(s.m_accumulatedTime + deltaTime) / 0.005⌋ : ℤ) : ℚ) := by
      rw [← hk]
      simp
    have h1 : (k : ℚ) * 0.005 ≤ s.m_accumulatedTime + deltaTime := by
      have := Int.floor_le ((s.m_accumulatedTime + deltaTime) / 0.005)
      rw [← hkq] at this
      exact (le_div_iff₀ (by norm_num)).mp this
    have h2 : s.m_accumulatedTime + deltaTime < ((k : ℚ) + 1) * 0.005 := by
      have := Int.lt_floor_add_one ((s.m_accumulatedTime + deltaTime) / 0.005)
      rw [← hkq] at this
      exact (div_lt_iff₀ (by norm_num)).mp this
    have hiter : ∀ (j : Nat) (u : CookieSpring),
        ((CookieSpring.step false)^[j] u).m_accumulatedTime
          = u.m_accumulatedTime - (j : ℚ) * 0.005 := by
      intro j
      induction j with
      | zero => intro u; simp
      | succ j ih =>
        intro u
        rw [Function.iterate_succ_apply, ih]
        simp only [CookieSpring.step]
        push_cast
        ring
    refine ⟨k, k, _, fun fuel hfuel => ?_, rfl, hk, ?_, ?_, ?_⟩
    · exact CookieSpring.loop_iterate false k _ fuel h1 h2 hfuel
    · rw [CookieSpring.energy_iterate]
      rfl
    · rw [hiter]
      simp only
      linarith
    · rw [hiter]
      simp only
      linarith

/-- C4 from displacement `1` at rest, with `ε = 1/100`. -/
theorem CookieSpring_unpressed_converges_witness :
    ∃ N : Nat, ∀ n, N ≤ n →
      |((CookieSpring.step false)^[n]
          { m_x := 1, m_velocity := 0, m_accumulatedTime := 0 }).m_x| < 1 / 100 ∧
      |((CookieSpring.step false)^[n]
          { m_x := 1, m_velocity := 0, m_accumulatedTime := 0 }).m_velocity| < 1 / 100 :=
  (CookieSpring_unpressed_converges { m_x := 1, m_velocity := 0, m_accumulatedTime := 0 }
    (1 / 100) (by norm_num)).1

/-! ## Effects -/

theorem EffectKind.update_iff (kind : EffectKind) (t : ℚ) :
    kind.update t = true ↔ t < kind.expiry := by
  cases kind <;>
    simp only [EffectKind.update, EffectKind.expiry, CookieBackgroundEffect.update,
      CookieEffect.update, PlusOneEffect.update, decide_eq_true_eq] <;>
    norm_num

theorem Effect.advance_append (dt : ℚ) (c1 c2 : List EffectInstance) :
    Effect.advance dt (c1 ++ c2) = Effect.advance dt c1 ++ Effect.advance dt c2 := by
  simp [Effect.advance]

theorem Effect.advanceAll_append (dts : List ℚ) :
    ∀ c1 c2 : List EffectInstance,
      Effect.advanceAll dts (c1 ++ c2) = Effect.advanceAll dts c1 ++ Effect.advanceAll dts c2 := by
  induction dts with
  | nil => intro c1 c2; rfl
  | cons dt dts ih =>
    intro c1 c2
    simp only [Effect.advanceAll, Effect.advance_append, ih]

theorem Effect.advanceAll_nil (dts : List ℚ) : Effect.advanceAll dts [] = [] := by
  induction dts with
  | nil => rfl
  | cons dt dts ih => simpa [Effect.advanceAll, Effect.advance] using ih

theorem Effect.advance_single (kind : EffectKind) (e dt : ℚ) :
    Effect.advance dt [{ kind := kind, elapsed := e }]
      = if e + dt < kind.expiry then [{ kind := kind, elapsed := e + dt }] else [] := by
  by_cases h : e + dt < kind.expiry
  · simp [Effect.advance, h, (EffectKind.update_iff kind (e + dt)).mpr h]
  · have : kind.update (e + dt) = false := by
      rw [← Bool.not_eq_true, EffectKind.update_iff]
      exact h
    simp [Effect.advance, h, this]

theorem Effect.advanceAll_single (kind : EffectKind) (dts : List ℚ) :
    ∀ e : ℚ, (∀ dt ∈ dts, 0 ≤ dt) → e < kind.expiry →
      Effect.advanceAll dts [{ kind := kind, elapsed := e }]
        = if e + dts.sum < kind.expiry then [{ kind := kind, elapsed := e + dts.sum }]
          else [] := by
  induction dts with
  | nil =>
    intro e _ he
    simp [Effect.advanceAll, he]
  | cons dt dts ih =>
    intro e hnn he
    have hdts : ∀ d ∈ dts, 0 ≤ d := fun d hd => hnn d (List.mem_cons_of_mem _ hd)
    have hsum : 0 ≤ dts.sum := List.sum_nonneg hdts
    simp only [Effect.advanceAll, Effect.advance_single, List.sum_cons]
    by_cases h : e + dt < kind.expiry
    · rw [if_pos h, ih (e + dt) hdts h, add_assoc]
    · rw [if_neg h, Effect.advanceAll_nil, if_neg]
      linarith

/-- C10: each `update(t)` returns `true` exactly when `t` is below the
variant's threshold (`3.0` for the background fall, `1.0` for the burst and for
the rising "+1"); hence an instance added to a collection and then advanced by
frame times `dts ≥ 0` is in the collection, with elapsed time `sum dts`, when
`sum dts` is below its threshold, and is absent otherwise. -/
theorem effect_alive_until_expiry (kind : EffectKind) (dts : List ℚ) (c : List EffectInstance)
    (hdts : ∀ dt ∈ dts, 0 ≤ dt) :
    (∀ t : ℚ, CookieBackgroundEffect.update t = true ↔ t < 3.0) ∧
    (∀ t : ℚ, CookieEffect.update t = true ↔ t < 1.0) ∧
    (∀ t : ℚ, PlusOneEffect.update t = true ↔ t < 1.0) ∧
    (∀ t : ℚ, kind.update t = true ↔ t < kind.expiry) ∧
    (dts.sum < kind.expiry →
      Effect.advanceAll dts (Effect.add kind c)
        = Effect.advanceAll dts c ++ [{ kind := kind, elapsed := dts.sum }]) ∧
    (kind.expiry ≤ dts.sum →
      Effect.advanceAll dts (Effect.add kind c) = Effect.advanceAll dts c) := by
  have h0 : (0 : ℚ) < kind.expiry := by
    cases kind <;> simp [EffectKind.expiry]
  have hs := Effect.advanceAll_single kind dts 0 hdts h0
  rw [zero_add] at hs
  refine ⟨fun t => by simp [CookieBackgroundEffect.update],
    fun t => by simp [CookieEffect.update], fun t => by simp [PlusOneEffect.update],
    EffectKind.update_iff kind, fun h => ?_, fun h => ?_⟩
  · rw [Effect.add, Effect.advanceAll_append, hs, if_pos h]
  · rw [Effect.add, Effect.advanceAll_append, hs, if_neg (not_lt.mpr h), List.append_nil]

/-- C10 for a `CookieEffect` advanced by `1/2` and then `1/4`: it is still in the
collection, `3/4` old. -/
theorem effect_alive_until_expiry_witness :
    Effect.advanceAll [1 / 2, 1 / 4] (Effect.add EffectKind.CookieEffect [])
      = Effect.advanceAll [1 / 2, 1 / 4] []
        ++ [{ kind := EffectKind.CookieEffect, elapsed := [(1 / 2 : ℚ), 1 / 4].sum }] :=
  (effect_alive_until_expiry EffectKind.CookieEffect [1 / 2, 1 / 4] []
    (by intro dt hdt; simp at hdt; rcases hdt with rfl | rfl <;> norm_num)).2.2.2.2.1
    (by norm_num [EffectKind.expiry])

/-! ## Persistence -/

theorem getLE_putLE (k : Nat) :
    ∀ (n : Nat) (rest : List Nat), n < 256 ^ k →
      getLE k (putLE k n ++ rest) = some (n, rest) := by
  induction k with
  | zero =>
    intro n rest h
    have : n = 0 := by simpa using h
    simp [getLE, putLE, this]
  | succ k ih =>
    intro n rest h
    have hdiv : n / 256 < 256 ^ k := by
      rw [Nat.div_lt_iff_lt_mul (by norm_num)]
      rw [pow_succ] at h
      exact h
    have e : putLE (k + 1) n ++ rest = n % 256 :: (putLE k (n / 256) ++ rest) := rfl
    rw [e]
    simp only [getLE, ih (n / 256) rest hdiv]
    rw [Nat.mod_add_div]

theorem getLE_putInt32 (z : ℤ) (rest : List Nat) :
    getLE 4 (putInt32 z ++ rest) = some ((z % 4294967296).toNat, rest) := by
  unfold putInt32
  apply getLE_putLE
  have h1 : 0 ≤ z % 4294967296 := Int.emod_nonneg _ (by norm_num)
  have h2 : z % 4294967296 < 4294967296 := Int.emod_lt_of_pos _ (by norm_num)
  have : (256 : Nat) ^ 4 = 4294967296 := by norm_num
  omega

theorem toInt32_emod_toNat {z : ℤ} (h : isInt32 z) :
    toInt32 (((z % 4294967296).toNat : ℕ) : ℤ) = z := by
  unfold isInt32 at h
  unfold toInt32
  omega

theorem getInt32s_put (xs : List ℤ) :
    ∀ rest : List Nat, (∀ c ∈ xs, isInt32 c) →
      getInt32s xs.length ((xs.map putInt32).flatten ++ rest) = some (xs, rest) := by
  induction xs with
  | nil => intro rest _; simp [getInt32s]
  | cons x xs ih =>
    intro rest h
    have hx : isInt32 x := h x (List.mem_cons_self _ _)
    have hxs : ∀ c ∈ xs, isInt32 c := fun c hc => h c (List.mem_cons_of_mem _ hc)
    simp only [List.map_cons, List.flatten_cons, List.append_assoc, List.length_cons, getInt32s,
      getLE_putInt32, ih rest hxs, toInt32_emod_toNat hx]

theorem getArray_putArray (xs : List ℤ) (rest : List Nat)
    (h : ∀ c ∈ xs, isInt32 c) (hlen : xs.length < 2 ^ 64) :
    getArray (putArray xs ++ rest) = some (xs, rest) := by
  have h8 : xs.length < 256 ^ 8 := by
    have : (256 : Nat) ^ 8 = 2 ^ 64 := by norm_num
    omega
  simp only [getArray, putArray, List.append_assoc, getLE_putLE 8 _ _ h8, getInt32s_put xs rest h]

theorem SaveData.read_write (d : SaveData) (hbits : d.cookies < 2 ^ 64)
    (h : ∀ c ∈ d.itemCounts, isInt32 c) (hlen : d.itemCounts.length < 2 ^ 64) :
    SaveData.read (SaveData.write d) = some d := by
  have h8 : d.cookies < 256 ^ 8 := by
    have : (256 : Nat) ^ 8 = 2 ^ 64 := by norm_num
    omega
  have harr := getArray_putArray d.itemCounts [] h hlen
  rw [List.append_nil] at harr
  simp only [SaveData.read, SaveData.write, getLE_putLE 8 _ _ h8, harr]

/-- C3: for every state whose `cookies` is a representable double (its 64-bit
pattern stands for its value) and whose `itemCounts` are `int32` values, reading
the file written by the save gives back the record, and loading it yields
`cookies` and `itemCounts` exactly as saved (same length, order and values),
whatever state is loaded into. -/
theorem load_save_roundtrip (rep : DoubleRep) (s s0 : GameState)
    (hbits : rep.bits s.cookies < 2 ^ 64)
    (hvalue : rep.value (rep.bits s.cookies) = s.cookies)
    (hcounts : ∀ c ∈ s.itemCounts, isInt32 c)
    (hlen : s.itemCounts.length < 2 ^ 64) :
    SaveData.read (saveGame rep s)
      = some { cookies := rep.bits s.cookies, itemCounts := s.itemCounts } ∧
    (∃ s1, loadGame rep (some (saveGame rep s)) s0 = some s1 ∧
      s1.cookies = s.cookies ∧ s1.itemCounts = s.itemCounts ∧
      s1.itemCounts.length = s.itemCounts.length) := by
  have hread := SaveData.read_write
    { cookies := rep.bits s.cookies, itemCounts := s.itemCounts } hbits hcounts hlen
  refine ⟨hread, ?_⟩
  refine ⟨{ s0 with cookies := s.cookies, itemCounts := s.itemCounts }, ?_, rfl, rfl, rfl⟩
  simp only [loadGame, saveGame, hread, hvalue]

/-- C3 at `cookies = 15.0` (pattern `0x402E000000000000`) and counts
`[1, 0, 0]`. -/
theorem load_save_roundtrip_witness :
    ∃ s1, loadGame { bits := fun _ => 0x402E000000000000, value := ieee754Value }
        (some (saveGame { bits := fun _ => 0x402E000000000000, value := ieee754Value }
          { cookies := 15, itemCounts := [1, 0, 0], accumulatedTime := 1 / 20 }))
        (initialState ItemTable) = some s1 ∧
      s1.cookies = 15 ∧ s1.itemCounts = [1, 0, 0] ∧ s1.itemCounts.length = [(1 : ℤ), 0, 0].length :=
  (load_save_roundtrip { bits := fun _ => 0x402E000000000000, value := ieee754Value }
    { cookies := 15, itemCounts := [1, 0, 0], accumulatedTime := 1 / 20 }
    (initialState ItemTable) (by norm_num) (by norm_num [ieee754Value]) (by decide)
    (by decide)).2

/-! ## The length invariant -/

theorem accrue_itemCounts (cps : ℤ) (deltaTime : ℚ) (s : GameState) :
    (accrue cps deltaTime s).itemCounts = s.itemCounts := by
  simp only [accrue]
  split_ifs <;> rfl

theorem clickCookie_itemCounts (leftClicked : Bool) (s : GameState) :
    (clickCookie leftClicked s).itemCounts = s.itemCounts := by
  simp only [clickCookie]
  split_ifs <;> rfl

theorem purchase_length (ItemTable : List Item) (leftClicked : Bool) (i : Nat)
    (s s1 : GameState) (h : purchase ItemTable leftClicked i s = some s1) :
    s1.itemCounts.length = s.itemCounts.length := by
  unfold purchase at h
  split at h
  · dsimp only at h
    split_ifs at h
    · simp only [Option.some.injEq] at h
      rw [← h]
      simp
    · simp only [Option.some.injEq] at h
      rw [h]
  · simp at h

theorem purchase_defined (ItemTable : List Item) (leftClicked : Bool) (i : Nat) (s : GameState)
    (hi : i < ItemTable.length) (hlen : s.itemCounts.length = ItemTable.length) :
    ∃ s1, purchase ItemTable leftClicked i s = some s1 := by
  have h1 : ItemTable[i]? = some ItemTable[i] := List.getElem?_eq_getElem hi
  have hi2 : i < s.itemCounts.length := by omega
  have h2 : s.itemCounts[i]? = some s.itemCounts[i] := List.getElem?_eq_getElem hi2
  simp only [purchase, h1, h2]
  split_ifs
  · exact ⟨_, rfl⟩
  · exact ⟨_, rfl⟩

theorem purchaseLoop_length (ItemTable : List Item) (leftClicked : Nat → Bool) (is : List Nat) :
    ∀ s : GameState, (∀ i ∈ is, i < ItemTable.length) →
      s.itemCounts.length = ItemTable.length →
      ∃ s1, purchaseLoop ItemTable leftClicked is s = some s1 ∧
        s1.itemCounts.length = ItemTable.length := by
  induction is with
  | nil => intro s _ hlen; exact ⟨s, rfl, hlen⟩
  | cons i is ih =>
    intro s hall hlen
    obtain ⟨s1, h1⟩ := purchase_defined ItemTable (leftClicked i) i s
      (hall i (List.mem_cons_self _ _)) hlen
    have hlen1 : s1.itemCounts.length = ItemTable.length := by
      rw [purchase_length ItemTable (leftClicked i) i s s1 h1, hlen]
    obtain ⟨s2, h2, hlen2⟩ := ih s1 (fun j hj => hall j (List.mem_cons_of_mem _ hj)) hlen1
    exact ⟨s2, by simp only [purchaseLoop, h1, h2], hlen2⟩

theorem frame_length (ItemTable : List Item) (inp : FrameInput) (s : GameState)
    (hlen : s.itemCounts.length = ItemTable.length) :
    ∃ s1, frame ItemTable inp s = some s1 ∧ s1.itemCounts.length = ItemTable.length := by
  have hcps := CalculateCPS_eq_toInt32_sum ItemTable s.itemCounts hlen
  have hpre : (clickCookie inp.cookieClicked
      (accrue (toInt32 (cpsSum ItemTable s.itemCounts)) inp.deltaTime s)).itemCounts.length
      = ItemTable.length := by
    rw [clickCookie_itemCounts, accrue_itemCounts, hlen]
  obtain ⟨s1, h1, hlen1⟩ := purchaseLoop_length ItemTable inp.buttonClicked
    (List.range ItemTable.length) _ (fun i hi => List.mem_range.mp hi) hpre
  exact ⟨s1, by simp only [frame, hcps, h1], hlen1⟩

/-- C9 as stated fails: a save file that opens and holds a record with two item
counts is loaded as it is, and the state after loading has `itemCounts` of
length `2` against a catalogue of length `3`; the next `CalculateCPS` then reads
`itemCounts[2]` out of bounds. -/
theorem load_short_record_counterexample :
    SaveData.read (SaveData.write { cookies := 0, itemCounts := [0, 0] })
      = some { cookies := 0, itemCounts := [0, 0] } ∧
    (∃ s, Reachable { bits := fun _ => 0, value := ieee754Value } ItemTable (fun _ => True) s ∧
      s.itemCounts.length = 2 ∧ ItemTable.length = 3 ∧
      s.itemCounts.length ≠ ItemTable.length ∧
      CalculateCPS ItemTable s.itemCounts = none) := by
  have hread : SaveData.read (SaveData.write { cookies := 0, itemCounts := [0, 0] })
      = some { cookies := 0, itemCounts := [0, 0] } := by decide
  refine ⟨hread, { cookies := ieee754Value 0, itemCounts := [0, 0], accumulatedTime := 0 },
    ?_, rfl, rfl, by decide, by decide⟩
  refine Reachable.load (SaveData.write { cookies := 0, itemCounts := [0, 0] })
    { cookies := 0, itemCounts := [0, 0] } _ hread trivial ?_
  simp only [loadGame, hread, initialState]

/-- C9 (amended): `itemCounts.length == catalog.length` holds in every state
reached from the zero-initialised start, or from loading a save record whose
`itemCounts` has the catalogue's length, by any number of frame steps (accrual,
click, purchases); from such a state every frame step is defined (no subscript
out of bounds) and keeps the length. -/
theorem itemCounts_length_invariant (rep : DoubleRep) (ItemTable : List Item) (s : GameState)
    (h : Reachable rep ItemTable (fun d => d.itemCounts.length = ItemTable.length) s) :
    s.itemCounts.length = ItemTable.length ∧
    ∀ inp : FrameInput, ∃ s1, frame ItemTable inp s = some s1 ∧
      s1.itemCounts.length = ItemTable.length := by
  have hlen : s.itemCounts.length = ItemTable.length := by
    induction h with
    | start => simp [initialState]
    | load bs d s hread hacc hload =>
      simp only [loadGame, hread, Option.some.injEq] at hload
      rw [← hload]
      exact hacc
    | frame inp s s1 _ hframe ih =>
      obtain ⟨s2, h2, hlen2⟩ := frame_length ItemTable inp s ih
      rw [hframe, Option.some.injEq] at h2
      rw [h2]
      exact hlen2
  exact ⟨hlen, fun inp => frame_length ItemTable inp s hlen⟩

/-- The amended C9 at the initial state of the catalogue of `Main`. -/
theorem itemCounts_length_invariant_witness :
    (initialState ItemTable).itemCounts.length = ItemTable.length ∧
    ∀ inp : FrameInput, ∃ s1, frame ItemTable inp (initialState ItemTable) = some s1 ∧
      s1.itemCounts.length = ItemTable.length :=
  itemCounts_length_invariant { bits := fun _ => 0, value := ieee754Value } ItemTable
    (initialState ItemTable) Reachable.start

end CoolieClicker
